import Mathlib

/-!
# Verification of `generate_timesheet.py`

A shallow embedding of the timesheet generator's pure core: Python string
primitives (`int()`, `str.strip`, `str.split`), a model of `decimal.Decimal`
at the default context (28 significant digits, ROUND_HALF_EVEN), the
`strptime`/`strftime` patterns `%H:%M` and `%I:%M%p`, and the row-building
pipeline (`to_24h`, `to_display_time`, `parse_decimal`, `hours_from_span`,
`format_hours`, `build_rows`).

Scope notes, recorded once here:
* All text handling is modelled over ASCII; CPython additionally accepts
  non-ASCII Unicode digits and whitespace in `int()`, `Decimal()` and
  `strptime`, which no timesheet field uses.
* A `Decimal` is modelled by its numeric value (a rational) plus the special
  values NaN (with its diagnostic text) and infinities; the sign of a
  negative zero is not tracked, and signalling-NaN arithmetic (which raises
  in CPython) propagates like quiet NaN here.
* String functions from Lean core that use well-founded recursion are
  avoided; everything recurses structurally over `List Char` so that closed
  instances reduce in the kernel.
-/

attribute [local semireducible] Rat.mul Rat.add Rat.inv Rat.sub

namespace Timesheet

/-! ## Python string primitives -/

/-- The whitespace characters stripped by `str.strip()` (ASCII fragment). -/
def isPySpace (c : Char) : Bool :=
  c = ' ' || c = '\t' || c = '\n' || c = '\x0d' || c = '\x0b' || c = '\x0c'

/-- `str.strip()` on a character list. -/
def pyStrip (l : List Char) : List Char :=
  ((l.dropWhile isPySpace).reverse.dropWhile isPySpace).reverse

/-- Digit run of `int()`: after the first digit, single underscores may
separate digits (`1_0`), but may not lead, trail or repeat. -/
def pyIntDigits : List Char → Nat → Option Nat
  | [], acc => some acc
  | '_' :: c :: rest, acc =>
      if c.isDigit then pyIntDigits rest (acc * 10 + (c.toNat - 48)) else none
  | c :: rest, acc =>
      if c.isDigit then pyIntDigits rest (acc * 10 + (c.toNat - 48)) else none

/-- Unsigned digit run with an optional leading sign already removed. -/
def pyIntBody : List Char → Option Nat
  | c :: rest => if c.isDigit then pyIntDigits rest (c.toNat - 48) else none
  | [] => none

/-- Python `int(string)`: surrounding whitespace, an optional sign, then a
non-empty digit run with optional single interior underscores. -/
def pyInt? (s : String) : Option Int :=
  match pyStrip s.data with
  | '-' :: rest => (pyIntBody rest).map (fun n => -(n : Int))
  | '+' :: rest => (pyIntBody rest).map (fun n => (n : Int))
  | l => (pyIntBody l).map (fun n => (n : Int))

/-- Python `value.split(":")`: keeps empty fields, always non-empty result. -/
def splitColon : List Char → List (List Char)
  | [] => [[]]
  | ':' :: rest => [] :: splitColon rest
  | c :: rest =>
      match splitColon rest with
      | [] => [[c]]
      | p :: ps => (c :: p) :: ps

/-! ## The `decimal.Decimal` model -/

/-- A Python `Decimal` value: a finite number (identified with its rational
value), an infinity, or a NaN carrying the canonical text it prints as
(`"NaN"`, `"-sNaN12"`, ...). -/
inductive Dec where
  | num (q : ℚ)
  | inf (neg : Bool)
  | nan (text : String)
deriving DecidableEq, Repr

/-- Round a rational to an integer, ties to even (Python's default
ROUND_HALF_EVEN). -/
def rhe (q : ℚ) : ℤ :=
  if q - ⌊q⌋ < 1 / 2 then ⌊q⌋
  else if 1 / 2 < q - ⌊q⌋ then ⌊q⌋ + 1
  else if ⌊q⌋ % 2 = 0 then ⌊q⌋ else ⌊q⌋ + 1

/-- Fuel-based base-10 logarithm on `ℕ` (kernel-reducible, unlike the
well-founded `Nat.log`); `natLog10Aux fuel n = Nat.log 10 n` once
`n ≤ fuel`. -/
def natLog10Aux : ℕ → ℕ → ℕ
  | 0, _ => 0
  | fuel + 1, n => if n < 10 then 0 else natLog10Aux fuel (n / 10) + 1

/-- `Nat.log 10`, computably. -/
def natLog10 (n : ℕ) : ℕ := natLog10Aux n n

/-- `Nat.clog 10`, computably. -/
def natClog10 (n : ℕ) : ℕ := if n ≤ 1 then 0 else natLog10 (n - 1) + 1

/-- `Int.log 10` of a positive rational, computably (mirrors the definition
of `Int.log`). -/
def ratLog10 (r : ℚ) : ℤ :=
  if 1 ≤ r then (natLog10 ⌊r⌋₊ : ℤ) else -(natClog10 ⌈r⁻¹⌉₊ : ℤ)

/-- Round a nonzero rational to `p` significant decimal digits, ties to even:
the coefficient `rhe (q * 10 ^ s)` has `p` digits when `10 ^ (p-1-s) ≤ |q| <
10 ^ (p-s)`.  This is what every context-rounded `Decimal` operation does to
its exact result at precision `p = 28`. -/
def roundSig (p : ℕ) (q : ℚ) : ℚ :=
  if q = 0 then 0
  else
    (rhe (q * (10 : ℚ) ^ ((p : ℤ) - 1 - ratLog10 |q|)) : ℚ) *
      (10 : ℚ) ^ (-((p : ℤ) - 1 - ratLog10 |q|))

/-- Context precision of `decimal.getcontext()` (the script never changes
it). -/
def prec : ℕ := 28

/-- `Decimal.__add__` under the default context: exact sum, rounded to 28
significant digits.  NaN operands propagate (CPython would raise on a
signalling NaN; the distinction never matters below). -/
def decAdd : Dec → Dec → Dec
  | .nan t, _ => .nan t
  | _, .nan t => .nan t
  | .inf b₁, .inf b₂ => if b₁ = b₂ then .inf b₁ else .nan "NaN"
  | .inf b, .num _ => .inf b
  | .num _, .inf b => .inf b
  | .num a, .num b => .num (roundSig prec (a + b))

/-- `Decimal.__truediv__` under the default context: correctly rounded
quotient at 28 significant digits.  The script's only division has the
constant divisor `Decimal(60)`, so the zero-divisor case (which raises in
CPython) is given an arbitrary value. -/
def decDiv : Dec → Dec → Dec
  | .num a, .num b => if b = 0 then .nan "NaN" else .num (roundSig prec (a / b))
  | _, _ => .nan "NaN"

/-- `bool(decimal)`: zero is falsy, everything else (NaN included) truthy. -/
def decTruthy : Dec → Bool
  | .num q => q ≠ 0
  | _ => true

/-! ## `hours_from_span` (source lines 101–121) -/

/-- The inner `to_minutes` helper: empty string or anything but exactly two
`int()`-parseable `":"`-separated parts is rejected. -/
def to_minutes (value : String) : Option Int :=
  if value = "" then none
  else
    match splitColon value.data with
    | [p₁, p₂] =>
        match pyInt? ⟨p₁⟩, pyInt? ⟨p₂⟩ with
        | some hours, some minutes => some (hours * 60 + minutes)
        | _, _ => none
    | _ => none

/-- `hours_from_span(raw_start, raw_end)`: fail-soft duration of a span in
hours.  Malformed input yields `Decimal("0")`; an end before the start is
shifted forward by 24 hours; the minute difference is clamped at zero and
divided by `Decimal(60)`. -/
def hours_from_span (raw_start raw_end : String) : Dec :=
  match to_minutes raw_start, to_minutes raw_end with
  | some start_minutes, some end_minutes₀ =>
      let end_minutes : ℤ :=
        if end_minutes₀ < start_minutes then end_minutes₀ + 24 * 60 else end_minutes₀
      let elapsed : ℤ := max (end_minutes - start_minutes) 0
      decDiv (.num (elapsed : ℚ)) (.num 60)
  | _, _ => .num 0

/-! ## Decimal strings: `str`, `Decimal(str)`, `format(_, ".2f")` -/

/-- Decimal digits of a positive natural, most significant first
(fuel-based so that closed instances reduce in the kernel). -/
def natReprAux : ℕ → ℕ → List Char
  | 0, _ => []
  | fuel + 1, n => if n = 0 then [] else natReprAux fuel (n / 10) ++ [Nat.digitChar (n % 10)]

/-- Python `str` of a natural number. -/
def natRepr (n : ℕ) : String := if n = 0 then "0" else ⟨natReprAux n n⟩

/-- Python `str` of an `int`. -/
def intRepr : ℤ → String
  | .ofNat n => natRepr n
  | .negSucc n => "-" ++ natRepr (n + 1)

/-- Numeric value of a digit run, most significant first. -/
def digitsToNat (l : List Char) : ℕ :=
  l.foldl (fun acc c => acc * 10 + (c.toNat - 48)) 0

/-- Two-digit zero-padded field (`%02d`); faithful for arguments below 100,
which is all the script ever formats this way. -/
def pad2 (n : ℕ) : String := ⟨[Nat.digitChar (n / 10), Nat.digitChar (n % 10)]⟩

/-- Exponent suffix of a `Decimal` literal: empty, or `e`/`E`, an optional
sign and a non-empty digit run. -/
def decExponent? : List Char → Option ℤ
  | [] => some 0
  | 'e' :: rest => decExponentBody? rest
  | 'E' :: rest => decExponentBody? rest
  | _ => none
where
  decExponentBody? : List Char → Option ℤ
  | '-' :: rest =>
      if rest ≠ [] ∧ rest.all Char.isDigit then some (-(digitsToNat rest : ℤ)) else none
  | '+' :: rest =>
      if rest ≠ [] ∧ rest.all Char.isDigit then some (digitsToNat rest : ℤ) else none
  | rest =>
      if rest ≠ [] ∧ rest.all Char.isDigit then some (digitsToNat rest : ℤ) else none

/-- Signed value of a finite `Decimal` literal: the concatenated digits
scaled by the exponent, minus the length of the fractional part. -/
def decMag (neg : Bool) (digits : List Char) (fracLen : ℕ) (e : ℤ) : ℚ :=
  if neg then -((digitsToNat digits : ℚ) * (10 : ℚ) ^ (e - (fracLen : ℤ)))
  else (digitsToNat digits : ℚ) * (10 : ℚ) ^ (e - (fracLen : ℤ))

/-- Finite part of a `Decimal` literal, sign already removed:
`digits [. digits] [exponent]` with at least one digit. -/
def decBody? (neg : Bool) (l : List Char) : Option Dec :=
  match l.span Char.isDigit with
  | (ip, '.' :: rest) =>
      match rest.span Char.isDigit with
      | (fp, r₂) =>
          if ip = [] ∧ fp = [] then none
          else
            match decExponent? r₂ with
            | none => none
            | some e => some (.num (decMag neg (ip ++ fp) fp.length e))
  | (ip, r₁) =>
      if ip = [] then none
      else
        match decExponent? r₁ with
        | none => none
        | some e => some (.num (decMag neg ip 0 e))

/-- NaN diagnostic: the canonical text CPython prints for
`[-][s]NaN[payload]`. -/
def nanText (neg signaling : Bool) (payload : ℕ) : String :=
  (if neg then "-" else "") ++ (if signaling then "s" else "") ++ "NaN" ++
    (if payload = 0 then "" else natRepr payload)

/-- `Decimal` literal with the sign removed: infinities, NaNs (with digit
payload), or a finite number. -/
def decUnsigned? (neg : Bool) (l : List Char) : Option Dec :=
  let low := l.map Char.toLower
  if low = "inf".data ∨ low = "infinity".data then some (.inf neg)
  else if low.take 3 = "nan".data ∧ (low.drop 3).all Char.isDigit then
    some (.nan (nanText neg false (digitsToNat (low.drop 3))))
  else if low.take 4 = "snan".data ∧ (low.drop 4).all Char.isDigit then
    some (.nan (nanText neg true (digitsToNat (low.drop 4))))
  else decBody? neg l

/-- Python `Decimal(string)`: strips surrounding whitespace, deletes every
underscore, then parses `[sign] (digits[.digits] | .digits) [exponent]` or
the special values, case-insensitively.  Construction is exact — no context
rounding is applied. -/
def pyDecimal? (s : String) : Option Dec :=
  match (pyStrip s.data).filter (fun c => c ≠ '_') with
  | '-' :: rest => decUnsigned? true rest
  | '+' :: rest => decUnsigned? false rest
  | l => decUnsigned? false l

/-- `parse_decimal(value)` (source lines 92–98) on the `hours` field, which
arrives as absent/`None` (`none`) or as the `str()` form of its JSON value:
empty and `None` map to `None`, anything unparseable maps to `None`. -/
def parse_decimal : Option String → Option Dec
  | none => none
  | some "" => none
  | some s => pyDecimal? s

/-- `f"{value:.2f}"` on a `Decimal`: the value rounded to two fractional
digits, ties to even; NaNs print their diagnostic, infinities their name.
(The sign of a negative zero operand is not tracked by `Dec`, so `-0.001`
prints here as `0.00` where CPython prints `-0.00`; no claim depends on
it.) -/
def fmt2 : Dec → String
  | .nan t => t
  | .inf neg => if neg then "-Infinity" else "Infinity"
  | .num q =>
      let n : ℤ := rhe (q * 100)
      (if q < 0 then "-" else "") ++ natRepr (n.natAbs / 100) ++ "." ++ pad2 (n.natAbs % 100)

/-- The values `format_hours` can receive: `None`, a string, a `Decimal`, or
another numeric-like value (modelled by `int`). -/
inductive PVal where
  | pynone
  | pstr (s : String)
  | pdec (d : Dec)
  | pint (n : ℤ)
deriving DecidableEq, Repr

/-- `format_hours(value)` (source lines 15–23): `""` for empty/`None`,
two-fraction-digit formatting for a `Decimal`, conversion through
`Decimal(str(value))` for anything else, and the raw `str(value)` when that
conversion raises.  Total by construction — the model of "never raises". -/
def format_hours : PVal → String
  | .pynone => ""
  | .pstr s =>
      if s = "" then ""
      else
        match pyDecimal? s with
        | some d => fmt2 d
        | none => s
  | .pdec d => fmt2 d
  | .pint n =>
      match pyDecimal? (intRepr n) with
      | some d => fmt2 d
      | none => intRepr n

/-! ## `strptime`/`strftime` with the formats `%H:%M` and `%I:%M%p`

`_strptime` compiles each directive to a regular expression and requires the
whole string to match: `%H` is `2[0-3]|[0-1]\d|\d`, `%M` is `[0-5]\d|\d`,
`%I` is `1[0-2]|0[1-9]|[1-9]`, `%p` is `AM|PM` (case-insensitively; every
caller here has upper-cased its input first).  Each reader below consumes a
greedy two-digit match when the regex allows it, else one digit. -/

/-- Read an `%H` field (hour 0–23). -/
def readH : List Char → Option (ℕ × List Char)
  | c₁ :: c₂ :: rest =>
      if c₁.isDigit ∧ c₂.isDigit ∧ (c₁.toNat - 48) * 10 + (c₂.toNat - 48) ≤ 23 then
        some ((c₁.toNat - 48) * 10 + (c₂.toNat - 48), rest)
      else if c₁.isDigit then some (c₁.toNat - 48, c₂ :: rest)
      else none
  | [c₁] => if c₁.isDigit then some (c₁.toNat - 48, []) else none
  | [] => none

/-- Read an `%M` field (minute 0–59). -/
def readM : List Char → Option (ℕ × List Char)
  | c₁ :: c₂ :: rest =>
      if c₁.isDigit ∧ c₂.isDigit ∧ c₁.toNat - 48 ≤ 5 then
        some ((c₁.toNat - 48) * 10 + (c₂.toNat - 48), rest)
      else if c₁.isDigit then some (c₁.toNat - 48, c₂ :: rest)
      else none
  | [c₁] => if c₁.isDigit then some (c₁.toNat - 48, []) else none
  | [] => none

/-- Read an `%I` field (hour 1–12). -/
def readI : List Char → Option (ℕ × List Char)
  | c₁ :: c₂ :: rest =>
      if (c₁ = '1' ∧ c₂.isDigit ∧ c₂.toNat - 48 ≤ 2) ∨ (c₁ = '0' ∧ c₂.isDigit ∧ 1 ≤ c₂.toNat - 48) then
        some ((c₁.toNat - 48) * 10 + (c₂.toNat - 48), rest)
      else if c₁.isDigit ∧ c₁ ≠ '0' then some (c₁.toNat - 48, c₂ :: rest)
      else none
  | [c₁] => if c₁.isDigit ∧ c₁ ≠ '0' then some (c₁.toNat - 48, []) else none
  | [] => none

/-- `strptime(s, "%H:%M")`, whole string matched. -/
def parseHM (s : String) : Option (ℕ × ℕ) :=
  match readH s.data with
  | some (h, ':' :: rest) =>
      match readM rest with
      | some (m, []) => some (h, m)
      | _ => none
  | _ => none

/-- `strptime(s, "%I:%M%p")` on the (already upper-cased) string, whole
string matched; `true` means PM. -/
def parse12 (s : String) : Option (ℕ × ℕ × Bool) :=
  match readI s.data with
  | some (h, ':' :: rest) =>
      match readM rest with
      | some (m, 'A' :: 'M' :: []) => some (h, m, false)
      | some (m, 'P' :: 'M' :: []) => some (h, m, true)
      | _ => none
  | _ => none

/-- `strftime("%H:%M")`: both fields zero-padded to two digits. -/
def fmtHM (h m : ℕ) : String :=
  ⟨[Nat.digitChar (h / 10), Nat.digitChar (h % 10), ':',
    Nat.digitChar (m / 10), Nat.digitChar (m % 10)]⟩

/-- `strftime("%I:%M%p")`: 12-hour clock with a zero-padded two-digit hour
(`%I` pads — `09:00AM`, not `9:00AM`). -/
def fmt12 (h m : ℕ) : String :=
  let h₁₂ := if h % 12 = 0 then 12 else h % 12
  ⟨[Nat.digitChar (h₁₂ / 10), Nat.digitChar (h₁₂ % 10), ':',
    Nat.digitChar (m / 10), Nat.digitChar (m % 10)] ++
    (if h < 12 then ['A', 'M'] else ['P', 'M'])⟩

/-! ## `to_24h` and `to_display_time` (source lines 69–89) -/

/-- `value.strip().upper().replace(" ", "")` (ASCII upper-casing). -/
def pyClean (value : String) : String :=
  ⟨((pyStrip value.data).map Char.toUpper).filter (fun c => c ≠ ' ')⟩

/-- `to_24h(value)`: empty input stays empty; otherwise the cleaned text is
tried as 12-hour `%I:%M%p` first (AM/PM folded into a 0–23 hour), then as
24-hour `%H:%M`, and re-rendered as canonical zero-padded `HH:MM`; anything
else collapses to `""`. -/
def to_24h (value : String) : String :=
  if value = "" then ""
  else
    match parse12 (pyClean value) with
    | some (h₁₂, m, pm) => fmtHM (h₁₂ % 12 + if pm then 12 else 0) m
    | none =>
        match parseHM (pyClean value) with
        | some (h, m) => fmtHM h m
        | none => ""

/-- `to_display_time(value)`: `"--"` for empty input, the 12-hour rendering
for anything `%H:%M` accepts, and the input unchanged otherwise. -/
def to_display_time (value : String) : String :=
  if value = "" then "--"
  else
    match parseHM value with
    | some (h, m) => fmt12 h m
    | none => value

/-! ## HTML helpers and `build_rows` (source lines 26–37 and 124–200) -/

/-- `html.escape` with `quote=True`: the five standard replacements. -/
def escChar (c : Char) : List Char :=
  if c = '&' then "&amp;".data
  else if c = '<' then "&lt;".data
  else if c = '>' then "&gt;".data
  else if c = '"' then "&quot;".data
  else if c = '\'' then "&#x27;".data
  else [c]

/-- `html.escape(s, quote=True)`. -/
def escape (s : String) : String :=
  ⟨s.data.foldr (fun c acc => escChar c ++ acc) []⟩

/-- `wrap_editable_value(value, extra_attrs)` (source lines 26–29). -/
def wrap_editable_value (value : String) (extra_attrs : String := "") : String :=
  if value = "" then "<span data-editable=\"true\"" ++ extra_attrs ++ "></span>"
  else "<span data-editable=\"true\"" ++ extra_attrs ++ ">" ++ value ++ "</span>"

/-- One shift of a day entry: the `start`/`end` fields default to `""`
(`shift.get("start", "")`), the optional `hours` field is the `str()` form
of its JSON value when present. -/
structure Shift where
  start : String := ""
  «end» : String := ""
  hours : Option String := none
deriving DecidableEq, Repr

/-- One day of the timesheet record. -/
structure DayEntry where
  day : String := ""
  date : String := ""
  shifts : Option (List Shift) := none
deriving DecidableEq, Repr

/-- `shifts = entry.get("shifts") or []; if not shifts: shifts = [{}]`
(source lines 131 and 137–138): a missing, null or empty list becomes one
synthetic empty shift. -/
def effectiveShifts (entry : DayEntry) : List Shift :=
  match entry.shifts with
  | none => [{}]
  | some [] => [{}]
  | some shifts => shifts

/-- The duration accumulated for one shift (source lines 146–149): the
parsed explicit `hours` field if it parses, else the span duration of the
normalized times. -/
def shiftHours (shift : Shift) : Dec :=
  match parse_decimal shift.hours with
  | some d => d
  | none => hours_from_span (to_24h shift.start) (to_24h shift.«end»)

/-- `day_total`: left-to-right `Decimal` sum of the day's shift durations,
starting from `Decimal("0")`. -/
def dayTotal (entry : DayEntry) : Dec :=
  (effectiveShifts entry).foldl (fun acc s => decAdd acc (shiftHours s)) (.num 0)

/-- The start-side fragment of one shift (source lines 151–163).  The
`data-raw-value` and `value` attributes interpolate `raw_start` — an output
of `to_24h` — without escaping; the display span is escaped. -/
def startFragment (index shift_index : ℕ) (raw_start display_start : String) : String :=
  "<div class=\"shift-entry\" " ++
  "data-day-index=\"" ++ natRepr index ++ "\" data-shift-index=\"" ++ natRepr shift_index ++ "\">" ++
  "<span data-shift-display=\"start\" data-day-index=\"" ++ natRepr index ++ "\" " ++
  "data-shift-index=\"" ++ natRepr shift_index ++ "\" data-raw-value=\"" ++ raw_start ++ "\">" ++
  display_start ++ "</span>" ++
  "<input class=\"time-input\" type=\"time\" data-shift-input=\"start\" " ++
  "data-day-index=\"" ++ natRepr index ++ "\" data-shift-index=\"" ++ natRepr shift_index ++ "\" " ++
  "value=\"" ++ raw_start ++ "\">" ++
  "<button type=\"button\" class=\"shift-remove\" " ++
  "data-day-index=\"" ++ natRepr index ++ "\" data-shift-index=\"" ++ natRepr shift_index ++ "\">&times;</button>" ++
  "</div>"

/-- The end-side fragment of one shift (source lines 165–175). -/
def endFragment (index shift_index : ℕ) (raw_end display_end : String) : String :=
  "<div class=\"shift-entry\" " ++
  "data-day-index=\"" ++ natRepr index ++ "\" data-shift-index=\"" ++ natRepr shift_index ++ "\">" ++
  "<span data-shift-display=\"end\" data-day-index=\"" ++ natRepr index ++ "\" " ++
  "data-shift-index=\"" ++ natRepr shift_index ++ "\" data-raw-value=\"" ++ raw_end ++ "\">" ++
  display_end ++ "</span>" ++
  "<input class=\"time-input\" type=\"time\" data-shift-input=\"end\" " ++
  "data-day-index=\"" ++ natRepr index ++ "\" data-shift-index=\"" ++ natRepr shift_index ++ "\" " ++
  "value=\"" ++ raw_end ++ "\">" ++
  "</div>"

/-- The `start_entries` of one day, in shift order. -/
def dayStartEntries (index : ℕ) (entry : DayEntry) : List String :=
  (effectiveShifts entry).mapIdx fun shift_index s =>
    startFragment index shift_index (to_24h s.start) (escape (to_display_time (to_24h s.start)))

/-- The `end_entries` of one day, in shift order. -/
def dayEndEntries (index : ℕ) (entry : DayEntry) : List String :=
  (effectiveShifts entry).mapIdx fun shift_index s =>
    endFragment index shift_index (to_24h s.«end») (escape (to_display_time (to_24h s.«end»)))

/-- `hours_display` (source line 178): `format_hours(day_total)` when the
total is truthy, the literal `"0.00"` otherwise. -/
def hoursDisplay (entry : DayEntry) : String :=
  if decTruthy (dayTotal entry) then format_hours (.pdec (dayTotal entry)) else "0.00"

/-- The `<tr>` emitted for one day (source lines 180–198). -/
def dayRow (index : ℕ) (entry : DayEntry) : String :=
  "<tr>" ++
  "<td>" ++ wrap_editable_value (escape entry.day) ++ "</td>" ++
  "<td>" ++ wrap_editable_value (escape entry.date)
      (" data-date-cell=\"true\" data-day-offset=\"" ++ natRepr index ++ "\"") ++ "</td>" ++
  "<td>" ++
  "<div class=\"shift-list\" data-day-index=\"" ++ natRepr index ++ "\" data-shift-side=\"start\">" ++
  String.join (dayStartEntries index entry) ++
  "</div>" ++
  "<button type=\"button\" class=\"shift-add\" data-day-index=\"" ++ natRepr index ++ "\">+ Add Shift</button>" ++
  "</td>" ++
  "<td>" ++
  "<div class=\"shift-list\" data-day-index=\"" ++ natRepr index ++ "\" data-shift-side=\"end\">" ++
  String.join (dayEndEntries index entry) ++
  "</div>" ++
  "</td>" ++
  "<td class=\"hours\"><span data-day-hours=\"true\" data-hours-cell=\"true\" " ++
  "data-day-index=\"" ++ natRepr index ++ "\">" ++ hoursDisplay entry ++ "</span></td>" ++
  "</tr>"

/-- `total`: the running `Decimal` week total, `total += day_total` over the
entries in order. -/
def weekTotal (entries : List DayEntry) : Dec :=
  entries.foldl (fun acc e => decAdd acc (dayTotal e)) (.num 0)

/-- `build_rows(entries)` (source lines 124–200): the joined day rows and
the formatted week total. -/
def build_rows (entries : List DayEntry) : String × String :=
  (String.intercalate "\n          " (entries.mapIdx dayRow),
   format_hours (.pdec (weekTotal entries)))

/-- Every string the shift fragments interpolate into an unescaped
`data-raw-value="…"` or `value="…"` attribute, in emission order: by
construction of `dayStartEntries`/`dayEndEntries` these are exactly the
`to_24h` normalizations of the shifts' `start`/`end` fields. -/
def rawTimeValues (entries : List DayEntry) : List String :=
  (entries.map fun e =>
    ((effectiveShifts e).map fun s => [to_24h s.start, to_24h s.«end»]).join).join

/-! ## Statement vocabulary for the claims -/

/-- `q` is representable with at most `p` significant decimal digits
(coefficient–exponent form).  Context-rounded `Decimal` operations leave
such values unchanged. -/
def Rep (p : ℕ) (q : ℚ) : Prop :=
  ∃ m e : ℤ, q = (m : ℚ) * (10 : ℚ) ^ e ∧ |m| < 10 ^ p

/-- Canonical five-character `HH:MM` shape: two digits, a colon, two
digits. -/
def isCanonicalHHMM (s : String) : Bool :=
  match s.data with
  | [c₁, c₂, c₃, c₄, c₅] => c₁.isDigit && c₂.isDigit && (c₃ == ':') && c₄.isDigit && c₅.isDigit
  | _ => false

/-- Malformedness in the words of claim C5: empty, a wrong number of
colon-separated parts, or a part `int()` rejects. -/
def malformedTime (s : String) : Prop :=
  s = "" ∨ (splitColon s.data).length ≠ 2 ∨ ∃ p ∈ splitColon s.data, pyInt? ⟨p⟩ = none

/-- Modelled from the spec: the claimed display form "12-hour display with
no leading zero on the hour" (`to_display_time` actually zero-pads via
`%I`); used only to refute that wording. -/
def displayNoLeadZero (h m : ℕ) : String :=
  let h₁₂ := if h % 12 = 0 then 12 else h % 12
  natRepr h₁₂ ++ ":" ++ pad2 m ++ (if h < 12 then "AM" else "PM")

/-- The elapsed minutes `hours_from_span` divides by 60, as a function of
the two parsed minute values (source lines 118–120). -/
def spanElapsed (start_minutes end_minutes : ℤ) : ℤ :=
  max ((if end_minutes < start_minutes then end_minutes + 24 * 60 else end_minutes)
    - start_minutes) 0

/-- A `Dec` the program can actually hold after an arithmetic step: finite
values are 28-significant-digit rounded. -/
def DecRounded : Dec → Prop
  | .num q => roundSig prec q = q
  | _ => True

/-! ## Half-even rounding: basic facts -/

theorem rhe_intCast (m : ℤ) : rhe (m : ℚ) = m := by
  simp [rhe]

theorem rhe_le (q : ℚ) : (rhe q : ℚ) ≤ q + 1 / 2 := by
  have h₁ := Int.floor_le q
  have h₂ := Int.lt_floor_add_one q
  unfold rhe
  split_ifs <;> push_cast <;> linarith

theorem rhe_ge (q : ℚ) : q - 1 / 2 ≤ (rhe q : ℚ) := by
  have h₁ := Int.floor_le q
  have h₂ := Int.lt_floor_add_one q
  unfold rhe
  split_ifs <;> push_cast <;> linarith

theorem rhe_nonneg {q : ℚ} (h : 0 ≤ q) : 0 ≤ rhe q := by
  have hf : 0 ≤ ⌊q⌋ := Int.floor_nonneg.2 h
  unfold rhe
  split_ifs <;> omega

/-! ## The computable logarithms agree with Mathlib's -/

theorem natLog10Aux_eq : ∀ fuel n : ℕ, n ≤ fuel → natLog10Aux fuel n = Nat.log 10 n := by
  intro fuel
  induction fuel with
  | zero =>
      intro n hn
      interval_cases n
      simp [natLog10Aux]
  | succ fuel ih =>
      intro n hn
      rw [natLog10Aux]
      split_ifs with h
      · exact (Nat.log_eq_zero_iff.2 (Or.inl h)).symm
      · have h₁₀ : 10 ≤ n := not_lt.1 h
        have hdiv : n / 10 ≤ fuel := by
          have : n / 10 < n := Nat.div_lt_self (by omega) (by norm_num)
          omega
        rw [ih _ hdiv, Nat.log_div_base]
        have hpos : 0 < Nat.log 10 n := Nat.log_pos (by norm_num) h₁₀
        omega

theorem natLog10_eq (n : ℕ) : natLog10 n = Nat.log 10 n :=
  natLog10Aux_eq n n le_rfl

theorem natClog10_eq (n : ℕ) : natClog10 n = Nat.clog 10 n := by
  unfold natClog10
  split_ifs with h
  · interval_cases n
    · simp
    · simp
  · push_neg at h
    rw [natLog10_eq]
    refine le_antisymm ?_ ?_
    · by_contra hc
      push_neg at hc
      have h₁ : n ≤ 10 ^ Nat.log 10 (n - 1) :=
        (Nat.le_pow_iff_clog_le (by norm_num)).2 (by omega)
      have h₂ : 10 ^ Nat.log 10 (n - 1) ≤ n - 1 := Nat.pow_log_le_self 10 (by omega)
      omega
    · refine (Nat.le_pow_iff_clog_le (by norm_num)).1 ?_
      have := Nat.lt_pow_succ_log_self (b := 10) (by norm_num) (n - 1)
      omega

theorem ratLog10_eq (r : ℚ) : ratLog10 r = Int.log 10 r := by
  unfold ratLog10
  split_ifs with h
  · rw [Int.log_of_one_le_right _ h, natLog10_eq]
  · rw [Int.log_of_right_le_one _ (le_of_not_le h), natClog10_eq]

theorem ratLog10_zpow_le {q : ℚ} (hq : q ≠ 0) : (10 : ℚ) ^ ratLog10 |q| ≤ |q| := by
  rw [ratLog10_eq]
  exact_mod_cast Int.zpow_log_le_self (b := 10) (R := ℚ) (by norm_num) (abs_pos.2 hq)

theorem ratLog10_lt_zpow (q : ℚ) : |q| < (10 : ℚ) ^ (ratLog10 |q| + 1) := by
  rw [ratLog10_eq]
  exact_mod_cast Int.lt_zpow_succ_log_self (b := 10) (R := ℚ) (by norm_num) |q|

theorem ratLog10_lt {q : ℚ} {t : ℤ} (hq : q ≠ 0) (h : |q| < (10 : ℚ) ^ t) :
    ratLog10 |q| < t := by
  rw [ratLog10_eq]
  exact (Int.lt_zpow_iff_log_lt (by norm_num) (abs_pos.2 hq)).1 (by exact_mod_cast h)

/-! ## 28-significant-digit rounding -/

theorem roundSig_zero (p : ℕ) : roundSig p 0 = 0 := by
  simp [roundSig]

theorem roundSig_nonneg (p : ℕ) {q : ℚ} (h : 0 ≤ q) : 0 ≤ roundSig p q := by
  unfold roundSig
  split_ifs with h₀
  · exact le_rfl
  · have h₁ : (0 : ℚ) < (10 : ℚ) ^ ((p : ℤ) - 1 - ratLog10 |q|) := zpow_pos (by norm_num) _
    have h₂ : 0 ≤ rhe (q * (10 : ℚ) ^ ((p : ℤ) - 1 - ratLog10 |q|)) :=
      rhe_nonneg (mul_nonneg h h₁.le)
    exact mul_nonneg (by exact_mod_cast h₂) (zpow_pos (by norm_num) _).le

theorem roundSig_eq_of_rep {p : ℕ} {q : ℚ} (h : Rep p q) : roundSig p q = q := by
  obtain ⟨m, e, rfl, hm⟩ := h
  by_cases hq : (m : ℚ) * (10 : ℚ) ^ e = 0
  · rw [hq, roundSig_zero]
  · have ten_ne : (10 : ℚ) ≠ 0 := by norm_num
    have hm0 : m ≠ 0 := by
      rintro rfl
      simp at hq
    unfold roundSig
    rw [if_neg hq]
    set d := ratLog10 |(m : ℚ) * (10 : ℚ) ^ e| with hd
    have habs : |(m : ℚ) * (10 : ℚ) ^ e| = |(m : ℚ)| * (10 : ℚ) ^ e := by
      rw [abs_mul, abs_of_pos (zpow_pos (by norm_num : (0:ℚ) < 10) e)]
    have hlt : d < (p : ℤ) + e := by
      refine ratLog10_lt hq ?_
      rw [habs]
      have hmq : |(m : ℚ)| < (10 : ℚ) ^ (p : ℤ) := by
        rw [← Int.cast_abs,
          show (10 : ℚ) ^ (p : ℤ) = ((10 ^ p : ℤ) : ℚ) by push_cast [zpow_natCast]; ring]
        exact_mod_cast hm
      calc |(m : ℚ)| * (10 : ℚ) ^ e < (10 : ℚ) ^ (p : ℤ) * (10 : ℚ) ^ e := by
            have : (0:ℚ) < (10 : ℚ) ^ e := zpow_pos (by norm_num) e
            exact mul_lt_mul_of_pos_right hmq this
      _ = (10 : ℚ) ^ ((p : ℤ) + e) := (zpow_add₀ ten_ne _ _).symm
    have hk : 0 ≤ e + ((p : ℤ) - 1 - d) := by omega
    have hint : (m : ℚ) * (10 : ℚ) ^ e * (10 : ℚ) ^ ((p : ℤ) - 1 - d) =
        ((m * 10 ^ (e + ((p : ℤ) - 1 - d)).toNat : ℤ) : ℚ) := by
      push_cast
      rw [mul_assoc, ← zpow_add₀ ten_ne, ← zpow_natCast (10 : ℚ), Int.toNat_of_nonneg hk]
    rw [hint, rhe_intCast, ← hint, mul_assoc, ← zpow_add₀ ten_ne, add_neg_cancel,
      zpow_zero, mul_one]

theorem rep_roundSig (p : ℕ) (hp : 1 ≤ p) (q : ℚ) : Rep p (roundSig p q) := by
  by_cases hq : q = 0
  · subst hq
    rw [roundSig_zero]
    exact ⟨0, 0, by simp, by positivity⟩
  · have ten_ne : (10 : ℚ) ≠ 0 := by norm_num
    unfold roundSig
    rw [if_neg hq]
    set d := ratLog10 |q| with hd
    set s : ℤ := (p : ℤ) - 1 - d with hs
    set x : ℚ := q * (10 : ℚ) ^ s with hx
    set m : ℤ := rhe x with hm
    have hxlt : |x| < (10 : ℚ) ^ (p : ℤ) := by
      have h₁ : |x| = |q| * (10 : ℚ) ^ s := by
        rw [hx, abs_mul, abs_of_pos (zpow_pos (by norm_num : (0:ℚ) < 10) s)]
      have h₂ : |q| < (10 : ℚ) ^ (d + 1) := ratLog10_lt_zpow q
      calc |x| < (10 : ℚ) ^ (d + 1) * (10 : ℚ) ^ s := by
            rw [h₁]
            exact mul_lt_mul_of_pos_right h₂ (zpow_pos (by norm_num) s)
      _ = (10 : ℚ) ^ (p : ℤ) := by
            rw [← zpow_add₀ ten_ne]
            congr 1
            omega
    have habs : |(m : ℚ)| ≤ |x| + 1 / 2 := by
      have h₁ : |(m : ℚ)| - |x| ≤ |(m : ℚ) - x| := abs_sub_abs_le_abs_sub _ _
      have h₂ : |(m : ℚ) - x| ≤ 1 / 2 :=
        abs_sub_le_iff.2 ⟨by linarith [rhe_le x], by linarith [rhe_ge x]⟩
      linarith
    have hmle : |m| ≤ 10 ^ p := by
      have hmlt : |(m : ℚ)| < (10 : ℚ) ^ (p : ℤ) + 1 := by linarith
      have hcast : ((10 ^ p : ℤ) : ℚ) = (10 : ℚ) ^ (p : ℤ) := by
        push_cast [zpow_natCast]
        ring
      have h₁ : ((|m| : ℤ) : ℚ) < ((10 ^ p + 1 : ℤ) : ℚ) := by
        rw [Int.cast_abs]
        push_cast
        push_cast at hcast
        linarith
      have h₂ : |m| < 10 ^ p + 1 := by exact_mod_cast h₁
      omega
    rcases lt_or_eq_of_le hmle with hlt | heq
    · exact ⟨m, -s, rfl, hlt⟩
    · have h₁ : (10 : ℤ) ∣ |m| := by
        rw [heq]
        exact dvd_pow_self 10 (by omega)
      have h10 : (10 : ℤ) ∣ m := (dvd_abs _ _).1 h₁
      obtain ⟨c, hc⟩ := h10
      have habs10 : |c| = 10 ^ (p - 1) := by
        have h₂ : |(10 : ℤ) * c| = 10 * |c| := by
          rw [abs_mul]
          norm_num
        have h₃ : (10 : ℤ) ^ p = 10 * 10 ^ (p - 1) := by
          conv_lhs => rw [show p = 1 + (p - 1) by omega]
          rw [pow_add, pow_one]
        rw [hc] at heq
        rw [h₂, h₃] at heq
        omega
      refine ⟨c, -s + 1, ?_, ?_⟩
      · rw [hc]
        push_cast
        rw [zpow_add₀ ten_ne, zpow_one]
        ring
      · rw [habs10]
        exact pow_lt_pow_right₀ (by norm_num) (by omega)

theorem roundSig_idem (p : ℕ) (hp : 1 ≤ p) (q : ℚ) :
    roundSig p (roundSig p q) = roundSig p q :=
  roundSig_eq_of_rep (rep_roundSig p hp q)

/-! ## `Decimal` arithmetic invariants -/

theorem decRounded_zero : DecRounded (.num 0) := by
  simp [DecRounded, roundSig_zero]

theorem decAdd_rounded (a b : Dec) : DecRounded (decAdd a b) := by
  cases a with
  | nan t => simp [decAdd, DecRounded]
  | inf b₁ =>
      cases b with
      | nan t => simp [decAdd, DecRounded]
      | inf b₂ => by_cases h : b₁ = b₂ <;> simp [decAdd, h, DecRounded]
      | num q => simp [decAdd, DecRounded]
  | num q =>
      cases b with
      | nan t => simp [decAdd, DecRounded]
      | inf b₂ => simp [decAdd, DecRounded]
      | num r => simpa [decAdd, DecRounded] using roundSig_idem prec (by decide) (q + r)

theorem decAdd_num_zero {t : Dec} (h : DecRounded t) : decAdd t (.num 0) = t := by
  cases t with
  | num q =>
      have hq : roundSig prec q = q := h
      simp [decAdd, hq]
  | inf b => rfl
  | nan s => rfl

theorem foldl_decAdd_rounded (l : List Dec) (t : Dec) (h : DecRounded t) :
    DecRounded (l.foldl decAdd t) := by
  induction l generalizing t with
  | nil => exact h
  | cons x xs ih => exact ih _ (decAdd_rounded t x)

theorem weekTotal_rounded (entries : List DayEntry) : DecRounded (weekTotal entries) := by
  have h : weekTotal entries = (entries.map dayTotal).foldl decAdd (.num 0) := by
    rw [List.foldl_map]
    rfl
  rw [h]
  exact foldl_decAdd_rounded _ _ decRounded_zero

theorem weekTotal_skip (pre post : List DayEntry) (e : DayEntry)
    (h : dayTotal e = .num 0) :
    weekTotal (pre ++ e :: post) = weekTotal (pre ++ post) := by
  unfold weekTotal
  rw [List.foldl_append, List.foldl_append, List.foldl_cons, h]
  congr 1
  exact decAdd_num_zero (weekTotal_rounded pre)

/-! ## Decomposing `hours_from_span` -/

theorem hours_from_span_none_left {s e : String} (hs : to_minutes s = none) :
    hours_from_span s e = .num 0 := by
  unfold hours_from_span
  rw [hs]

theorem hours_from_span_none_right {s e : String} (he : to_minutes e = none) :
    hours_from_span s e = .num 0 := by
  unfold hours_from_span
  rw [he]
  cases to_minutes s <;> rfl

theorem hours_from_span_eq {s e : String} {ms me : ℤ} (hs : to_minutes s = some ms)
    (he : to_minutes e = some me) :
    hours_from_span s e = .num (roundSig prec ((spanElapsed ms me : ℚ) / 60)) := by
  unfold hours_from_span
  rw [hs, he]
  simp only [decDiv, spanElapsed]
  norm_num

instance (s : String) : Decidable (malformedTime s) := by
  unfold malformedTime
  infer_instance

theorem malformed_to_minutes {s : String} (h : malformedTime s) : to_minutes s = none := by
  by_cases h₀ : s = ""
  · simp [to_minutes, h₀]
  · unfold to_minutes
    rw [if_neg h₀]
    rcases h with h | h | ⟨p, hp, hnone⟩
    · exact absurd h h₀
    · cases hl : splitColon s.data with
      | nil => rfl
      | cons a t =>
          cases t with
          | nil => rfl
          | cons b t₂ =>
              cases t₂ with
              | nil => rw [hl] at h; simp at h
              | cons c t₃ => rfl
    · cases hl : splitColon s.data with
      | nil => rfl
      | cons a t =>
          cases t with
          | nil => rfl
          | cons b t₂ =>
              cases t₂ with
              | nil =>
                  rw [hl] at hp
                  simp only [List.mem_cons, List.not_mem_nil, or_false] at hp
                  rcases hp with rfl | rfl
                  · simp [hnone]
                  · cases h₁ : pyInt? ⟨a⟩ <;> simp [h₁, hnone]
              | cons c t₃ => rfl

/-! ## Claim C1: overnight wrap-around -/

/-- **C1.**  For well-formed `HH:MM` times (components in range, so the two
minute counts lie in `[0, 1440)`) with the end earlier than the start,
`hours_from_span` adds 24 hours to the end before subtracting: the result is
exactly the `Decimal` division `(end + 24:00 − start) / 60`; in particular
`hours_from_span("22:00", "06:00") = Decimal 8 = 8.00`. -/
theorem c1_overnight_wrap :
    (∀ (s e : String) (ms me : ℤ), to_minutes s = some ms → to_minutes e = some me →
      0 ≤ ms → ms < 1440 → 0 ≤ me → me < 1440 → me < ms →
      hours_from_span s e = decDiv (.num ((me + 24 * 60 - ms : ℤ) : ℚ)) (.num 60)) ∧
    hours_from_span "22:00" "06:00" = .num 8 := by
  constructor
  · intro s e ms me hs he h₁ h₂ h₃ h₄ h₅
    rw [hours_from_span_eq hs he]
    have hsp : spanElapsed ms me = me + 24 * 60 - ms := by
      unfold spanElapsed
      rw [if_pos h₅]
      omega
    rw [hsp]
    simp [decDiv]
  · decide

/-- Witness for C1: the overnight shift 22:00 → 06:00. -/
theorem c1_overnight_wrap_witness :
    to_minutes "22:00" = some 1320 ∧ to_minutes "06:00" = some 360 ∧ (360 : ℤ) < 1320 ∧
    hours_from_span "22:00" "06:00" = decDiv (.num ((360 + 24 * 60 - 1320 : ℤ) : ℚ)) (.num 60) :=
  ⟨by decide, by decide, by decide,
    c1_overnight_wrap.1 "22:00" "06:00" 1320 360 (by decide) (by decide) (by decide)
      (by decide) (by decide) (by decide) (by decide)⟩

/-! ## Claim C4: explicit hours override -/

/-- **C4.**  When a shift's `hours` field parses as a decimal, that value is
the shift's entire contribution (the span computation is not consulted);
the computed span duration is used exactly when `hours` is absent, empty or
unparseable. -/
theorem c4_explicit_hours_override (shift : Shift) :
    (∀ d : Dec, parse_decimal shift.hours = some d → shiftHours shift = d) ∧
    (parse_decimal shift.hours = none →
      shiftHours shift = hours_from_span (to_24h shift.start) (to_24h shift.«end»)) := by
  constructor
  · intro d h
    unfold shiftHours
    rw [h]
  · intro h
    unfold shiftHours
    rw [h]

/-- Witness for C4: explicit `hours = "7.5"` beats the 8-hour span
09:00–17:00. -/
theorem c4_explicit_hours_override_witness :
    parse_decimal (some "7.5") = some (.num (15 / 2)) ∧
    shiftHours {start := "09:00", «end» := "17:00", hours := some "7.5"} = .num (15 / 2) ∧
    hours_from_span (to_24h "09:00") (to_24h "17:00") = .num 8 :=
  ⟨by decide, (c4_explicit_hours_override _).1 _ (by decide), by decide⟩

/-! ## Claim C5: fail-soft on malformed times -/

/-- **C5.**  If either operand is empty, does not split into exactly two
colon-separated parts, or has a part `int()` rejects, `hours_from_span`
returns exactly `Decimal("0")` (and, being total, never raises). -/
theorem c5_malformed_yields_zero (s e : String) (h : malformedTime s ∨ malformedTime e) :
    hours_from_span s e = .num 0 := by
  rcases h with h | h
  · exact hours_from_span_none_left (malformed_to_minutes h)
  · exact hours_from_span_none_right (malformed_to_minutes h)

/-- Witness for C5: a three-part time and an empty time. -/
theorem c5_malformed_yields_zero_witness :
    malformedTime "9:00:00" ∧ malformedTime "" ∧
    hours_from_span "9:00:00" "06:00" = .num 0 ∧
    hours_from_span "09:00" "" = .num 0 :=
  ⟨by decide, by decide,
    c5_malformed_yields_zero _ _ (Or.inl (by decide)),
    c5_malformed_yields_zero _ _ (Or.inr (by decide))⟩

/-! ## Claim C9: the result is never negative -/

/-- **C9.**  For arbitrary input strings — malformed, out of range, or with
a start so large that the 24-hour wrap does not restore order —
`hours_from_span` returns a finite `Decimal` that is `≥ 0`: the elapsed
minutes are clamped at zero before the division. -/
theorem c9_result_nonneg (s e : String) :
    ∃ q : ℚ, hours_from_span s e = .num q ∧ 0 ≤ q := by
  cases hs : to_minutes s with
  | none => exact ⟨0, hours_from_span_none_left hs, le_rfl⟩
  | some ms =>
      cases he : to_minutes e with
      | none => exact ⟨0, hours_from_span_none_right he, le_rfl⟩
      | some me =>
          refine ⟨_, hours_from_span_eq hs he, roundSig_nonneg _ ?_⟩
          have h₀ : (0 : ℤ) ≤ spanElapsed ms me := le_max_right _ _
          have h₁ : (0 : ℚ) ≤ (spanElapsed ms me : ℚ) := by exact_mod_cast h₀
          exact div_nonneg h₁ (by norm_num)

/-! ## Claim C2: exactness of durations and totals -/

theorem foldl_decAdd_exact :
    ∀ (l : List ℚ) (K : ℤ),
      (∀ x ∈ l, ∃ k : ℤ, x = (k : ℚ) / 20 ∧ |k| ≤ 10 ^ 20) →
      |K| + (l.length : ℤ) * 10 ^ 20 < 2 * 10 ^ 27 →
      (l.map Dec.num).foldl decAdd (.num ((K : ℚ) / 20)) = .num ((K : ℚ) / 20 + l.sum) := by
  intro l
  induction l with
  | nil =>
      intro K h₁ h₂
      simp
  | cons x xs ih =>
      intro K h₁ h₂
      obtain ⟨k, rfl, hk⟩ := h₁ x (List.mem_cons_self x xs)
      simp only [List.length_cons] at h₂
      have hlen : (0 : ℤ) ≤ (xs.length : ℤ) * 10 ^ 20 :=
        mul_nonneg (by exact_mod_cast Nat.zero_le _) (by norm_num)
      have h₂' : |K| + ((xs.length : ℤ) * 10 ^ 20 + 10 ^ 20) < 2 * 10 ^ 27 := by
        rw [Nat.cast_add, Nat.cast_one] at h₂
        linarith [h₂, show (((xs.length : ℤ)) + 1) * 10 ^ 20 =
          (xs.length : ℤ) * 10 ^ 20 + 10 ^ 20 from by ring]
      have hK : |K| + 10 ^ 20 < 2 * 10 ^ 27 := by linarith
      have habs : |K + k| ≤ |K| + |k| := abs_add K k
      have hstep : decAdd (.num ((K : ℚ) / 20)) (.num ((k : ℚ) / 20)) =
          .num (((K + k : ℤ) : ℚ) / 20) := by
        have hsum : (K : ℚ) / 20 + (k : ℚ) / 20 = ((K + k : ℤ) : ℚ) / 20 := by
          push_cast
          ring
        have hrep : Rep prec (((K + k : ℤ) : ℚ) / 20) := by
          refine ⟨5 * (K + k), -2, ?_, ?_⟩
          · push_cast
            rw [show ((10 : ℚ) ^ (-2 : ℤ)) = 1 / 100 by norm_num]
            ring
          · have habs5 : |5 * (K + k)| = 5 * |K + k| := by
              rw [abs_mul]
              norm_num
            show |5 * (K + k)| < 10 ^ prec
            rw [habs5, show (10 : ℤ) ^ prec = 5 * (2 * 10 ^ 27) from by norm_num [prec]]
            linarith
        show Dec.num (roundSig prec ((K : ℚ) / 20 + (k : ℚ) / 20)) = _
        rw [hsum, roundSig_eq_of_rep hrep]
      rw [List.map_cons, List.foldl_cons, hstep, ih (K + k)
        (fun y hy => h₁ y (List.mem_cons_of_mem _ hy))
        (by linarith)]
      congr 1
      rw [List.sum_cons]
      push_cast
      ring

/-- The counterexample to C2 as stated: a ten-minute span.  `Decimal(10) /
Decimal(60)` is the 28-significant-digit half-even rounding of `1/6`, not
the exact quotient, so the duration is **not** "elapsed minutes divided by
60 expressed as an exact decimal". -/
theorem c2_exact_decimal_counterexample :
    to_minutes "09:00" = some 540 ∧ to_minutes "09:10" = some 550 ∧
    hours_from_span "09:00" "09:10" ≠ .num ((10 : ℚ) / 60) ∧
    hours_from_span "09:00" "09:10" = .num (1666666666666666666666666667 / 10 ^ 28) :=
  ⟨by decide, by decide, by decide, by decide⟩

/-- **C2 (amended).**  Durations are computed in exact base-10 decimal
arithmetic (never binary floating point), but at Python's default context:
the duration is the elapsed minutes divided by 60 **correctly rounded to 28
significant digits** — exact whenever the elapsed minutes are divisible
by 3 (for in-range times) — and day and week totals are left-to-right
`Decimal` sums at the same 28-digit precision, which are exact for any
realistic batch of such durations (here: up to a million shifts of at most
5 · 10¹⁸ hours each, in twentieths of an hour). -/
theorem c2_duration_and_totals_rounding :
    (∀ (s e : String) (ms me : ℤ), to_minutes s = some ms → to_minutes e = some me →
      hours_from_span s e = .num (roundSig prec ((spanElapsed ms me : ℚ) / 60))) ∧
    (∀ (s e : String) (ms me : ℤ), to_minutes s = some ms → to_minutes e = some me →
      0 ≤ ms → ms < 1440 → 0 ≤ me → me < 1440 → (3 : ℤ) ∣ spanElapsed ms me →
      hours_from_span s e = .num ((spanElapsed ms me : ℚ) / 60)) ∧
    (∀ entry : DayEntry,
      dayTotal entry = ((effectiveShifts entry).map shiftHours).foldl decAdd (.num 0)) ∧
    (∀ entries : List DayEntry,
      weekTotal entries = (entries.map dayTotal).foldl decAdd (.num 0)) ∧
    (∀ durations : List ℚ,
      (∀ x ∈ durations, ∃ k : ℤ, x = (k : ℚ) / 20 ∧ |k| ≤ 10 ^ 20) →
      (durations.length : ℤ) ≤ 10 ^ 6 →
      (durations.map Dec.num).foldl decAdd (.num 0) = .num durations.sum) := by
  refine ⟨?_, ?_, ?_, ?_, ?_⟩
  · intro s e ms me hs he
    exact hours_from_span_eq hs he
  · intro s e ms me hs he h₁ h₂ h₃ h₄ hdvd
    rw [hours_from_span_eq hs he]
    obtain ⟨k, hk⟩ := hdvd
    have hbound : spanElapsed ms me ≤ 2879 := by
      unfold spanElapsed
      split_ifs <;> omega
    have h₀ : (0 : ℤ) ≤ spanElapsed ms me := le_max_right _ _
    have hkb : |k| ≤ 960 := by
      rw [abs_le]
      omega
    have hrep : Rep prec ((spanElapsed ms me : ℚ) / 60) := by
      refine ⟨5 * k, -2, ?_, ?_⟩
      · rw [hk]
        push_cast
        rw [show ((10 : ℚ) ^ (-2 : ℤ)) = 1 / 100 by norm_num]
        ring
      · have habs5 : |5 * k| = 5 * |k| := by
          rw [abs_mul]
          norm_num
        show |5 * k| < 10 ^ prec
        rw [habs5, show (10 : ℤ) ^ prec = 5 * (2 * 10 ^ 27) from by norm_num [prec]]
        linarith
    rw [roundSig_eq_of_rep hrep]
  · intro entry
    rw [List.foldl_map]
    rfl
  · intro entries
    rw [List.foldl_map]
    rfl
  · intro durations hdur hlen
    have h₀ := foldl_decAdd_exact durations 0 hdur
      (by
        have h₁ : (durations.length : ℤ) * 10 ^ 20 ≤ 10 ^ 6 * 10 ^ 20 :=
          mul_le_mul_of_nonneg_right hlen (by positivity)
        simp only [abs_zero]
        norm_num at h₁ ⊢
        linarith)
    simpa using h₀

/-! ## Character and parser facts -/

theorem digit_toNat {c : Char} (h : c.isDigit = true) : 48 ≤ c.toNat ∧ c.toNat ≤ 57 := by
  simpa [Char.isDigit] using h

theorem digit_val_le {c : Char} (h : c.isDigit = true) : c.toNat - 48 ≤ 9 := by
  have := digit_toNat h
  omega

theorem char_eq_zero_of_toNat {c : Char} (h : c.toNat = 48) : c = '0' := by
  apply Char.ext
  apply UInt32.toNat.inj
  exact h

theorem digitChar_isDigit {d : ℕ} (h : d < 10) : (Nat.digitChar d).isDigit = true := by
  interval_cases d <;> decide

theorem digitChar_val {d : ℕ} (h : d < 10) : (Nat.digitChar d).toNat - 48 = d := by
  interval_cases d <;> decide

theorem readH_le {l : List Char} {h : ℕ} {rest : List Char}
    (hr : readH l = some (h, rest)) : h ≤ 23 := by
  match l with
  | [] => simp [readH] at hr
  | [c₁] =>
      simp only [readH] at hr
      split_ifs at hr with hd
      · simp only [Option.some.injEq, Prod.mk.injEq] at hr
        have := digit_val_le hd
        omega
  | c₁ :: c₂ :: t =>
      simp only [readH] at hr
      split_ifs at hr with hd₁ hd₂
      · simp only [Option.some.injEq, Prod.mk.injEq] at hr
        omega
      · simp only [Option.some.injEq, Prod.mk.injEq] at hr
        have := digit_val_le hd₂
        omega

theorem readM_le {l : List Char} {m : ℕ} {rest : List Char}
    (hr : readM l = some (m, rest)) : m ≤ 59 := by
  match l with
  | [] => simp [readM] at hr
  | [c₁] =>
      simp only [readM] at hr
      split_ifs at hr with hd
      · simp only [Option.some.injEq, Prod.mk.injEq] at hr
        have := digit_val_le hd
        omega
  | c₁ :: c₂ :: t =>
      simp only [readM] at hr
      split_ifs at hr with hd₁ hd₂
      · simp only [Option.some.injEq, Prod.mk.injEq] at hr
        have := digit_val_le hd₁.2.1
        omega
      · simp only [Option.some.injEq, Prod.mk.injEq] at hr
        have := digit_val_le hd₂
        omega

theorem readI_bounds {l : List Char} {h : ℕ} {rest : List Char}
    (hr : readI l = some (h, rest)) : 1 ≤ h ∧ h ≤ 12 := by
  match l with
  | [] => simp [readI] at hr
  | [c₁] =>
      simp only [readI] at hr
      split_ifs at hr with hd
      · simp only [Option.some.injEq, Prod.mk.injEq] at hr
        obtain ⟨hdig, hne⟩ := hd
        have h₁ := digit_toNat hdig
        have h₂ : c₁.toNat ≠ 48 := fun hc => hne (char_eq_zero_of_toNat hc)
        omega
  | c₁ :: c₂ :: t =>
      simp only [readI] at hr
      split_ifs at hr with hd₁ hd₂
      · simp only [Option.some.injEq, Prod.mk.injEq] at hr
        have e₁ : ('1' : Char).toNat = 49 := rfl
        have e₀ : ('0' : Char).toNat = 48 := rfl
        rcases hd₁ with ⟨rfl, hdig, hle⟩ | ⟨rfl, hdig, hge⟩
        · have := digit_toNat hdig
          omega
        · have := digit_toNat hdig
          omega
      · simp only [Option.some.injEq, Prod.mk.injEq] at hr
        obtain ⟨hdig, hne⟩ := hd₂
        have h₁ := digit_toNat hdig
        have h₂ : c₁.toNat ≠ 48 := fun hc => hne (char_eq_zero_of_toNat hc)
        omega

theorem parseHM_bounds {s : String} {h m : ℕ} (hp : parseHM s = some (h, m)) :
    h ≤ 23 ∧ m ≤ 59 := by
  unfold parseHM at hp
  split at hp
  case _ h' rest heq =>
      split at hp
      case _ m' heq' =>
          simp only [Option.some.injEq, Prod.mk.injEq] at hp
          obtain ⟨rfl, rfl⟩ := hp
          exact ⟨readH_le heq, readM_le heq'⟩
      case _ => exact absurd hp (by simp)
  case _ => exact absurd hp (by simp)

theorem parse12_bounds {s : String} {h m : ℕ} {pm : Bool}
    (hp : parse12 s = some (h, m, pm)) : 1 ≤ h ∧ h ≤ 12 ∧ m ≤ 59 := by
  unfold parse12 at hp
  split at hp
  case _ h' rest heq =>
      split at hp
      case _ m' heq' =>
          simp only [Option.some.injEq, Prod.mk.injEq] at hp
          obtain ⟨rfl, rfl, rfl⟩ := hp
          exact ⟨(readI_bounds heq).1, (readI_bounds heq).2, readM_le heq'⟩
      case _ m' heq' =>
          simp only [Option.some.injEq, Prod.mk.injEq] at hp
          obtain ⟨rfl, rfl, rfl⟩ := hp
          exact ⟨(readI_bounds heq).1, (readI_bounds heq).2, readM_le heq'⟩
      case _ => exact absurd hp (by simp)
  case _ => exact absurd hp (by simp)

/-- Parsing inverts formatting for every in-range 24-hour time. -/
theorem parseHM_fmtHM : ∀ h : ℕ, h < 24 → ∀ m : ℕ, m < 60 →
    parseHM (fmtHM h m) = some (h, m) := by decide

/-- Re-parsing the 12-hour rendering recovers the clock time. -/
theorem parse12_fmt12 : ∀ h : ℕ, h < 24 → ∀ m : ℕ, m < 60 →
    parse12 (fmt12 h m) =
      some (if h % 12 = 0 then 12 else h % 12, m, if h < 12 then Bool.false else Bool.true) := by
  decide

theorem fmtHM_ne_empty (h m : ℕ) : fmtHM h m ≠ "" := by
  simp [fmtHM, String.ext_iff]

/-- Everything `to_24h` returns: empty, or a canonical rendering of an
in-range time. -/
theorem to_24h_cases (v : String) :
    to_24h v = "" ∨ ∃ h m, h < 24 ∧ m < 60 ∧ to_24h v = fmtHM h m := by
  unfold to_24h
  split_ifs with h₀
  · exact Or.inl rfl
  · cases h₁₂ : parse12 (pyClean v) with
    | some x =>
        obtain ⟨h, m, pm⟩ := x
        obtain ⟨hb₁, hb₂, hb₃⟩ := parse12_bounds h₁₂
        refine Or.inr ⟨h % 12 + if pm then 12 else 0, m, ?_, by omega, rfl⟩
        have : h % 12 < 12 := Nat.mod_lt _ (by norm_num)
        split_ifs <;> omega
    | none =>
        cases hHM : parseHM (pyClean v) with
        | some x =>
            obtain ⟨h, m⟩ := x
            obtain ⟨hb₁, hb₂⟩ := parseHM_bounds hHM
            exact Or.inr ⟨h, m, by omega, by omega, rfl⟩
        | none => exact Or.inl rfl

theorem fmtHM_chars {h m : ℕ} (hh : h < 100) (hm : m < 100) :
    ∀ c ∈ (fmtHM h m).data, c.isDigit = true ∨ c = ':' := by
  intro c hc
  have h₁ : h / 10 < 10 := by omega
  have h₂ : h % 10 < 10 := Nat.mod_lt _ (by norm_num)
  have h₃ : m / 10 < 10 := by omega
  have h₄ : m % 10 < 10 := Nat.mod_lt _ (by norm_num)
  simp only [fmtHM, List.mem_cons, List.not_mem_nil, or_false] at hc
  rcases hc with rfl | rfl | rfl | rfl | rfl
  · exact Or.inl (digitChar_isDigit h₁)
  · exact Or.inl (digitChar_isDigit h₂)
  · exact Or.inr rfl
  · exact Or.inl (digitChar_isDigit h₃)
  · exact Or.inl (digitChar_isDigit h₄)

theorem isCanonicalHHMM_fmtHM {h m : ℕ} (hh : h < 100) (hm : m < 100) :
    isCanonicalHHMM (fmtHM h m) = true := by
  have h₁ : h / 10 < 10 := by omega
  have h₂ : h % 10 < 10 := Nat.mod_lt _ (by norm_num)
  have h₃ : m / 10 < 10 := by omega
  have h₄ : m % 10 < 10 := Nat.mod_lt _ (by norm_num)
  simp [isCanonicalHHMM, fmtHM, digitChar_isDigit h₁, digitChar_isDigit h₂,
    digitChar_isDigit h₃, digitChar_isDigit h₄]

theorem digit_or_colon_safe {c : Char} (h : c.isDigit = true ∨ c = ':') :
    ¬(c = '"' ∨ c = '<' ∨ c = '>' ∨ c = '&') := by
  rcases h with h | rfl
  · rintro (rfl | rfl | rfl | rfl) <;> revert h <;> decide
  · decide

/-- Witness for C2 (amended): an exact overnight span and an exact
two-duration sum. -/
theorem c2_duration_and_totals_rounding_witness :
    hours_from_span "22:00" "06:00" = .num ((spanElapsed 1320 360 : ℚ) / 60) ∧
    (([(17 : ℚ) / 2, 1 / 20]).map Dec.num).foldl decAdd (.num 0) =
      .num ([(17 : ℚ) / 2, 1 / 20].sum) :=
  ⟨c2_duration_and_totals_rounding.2.1 "22:00" "06:00" 1320 360 (by decide) (by decide)
      (by decide) (by decide) (by decide) (by decide) ⟨160, by decide⟩,
   c2_duration_and_totals_rounding.2.2.2.2 _
      (by
        intro x hx
        simp only [List.mem_cons, List.not_mem_nil, or_false] at hx
        rcases hx with rfl | rfl
        · exact ⟨170, by norm_num, by norm_num⟩
        · exact ⟨1, by norm_num, by norm_num⟩)
      (by norm_num)⟩

/-! ## Claim C3: `to_display_time` -/

/-- The counterexample to C3 as stated: `strftime("%I:%M%p")` zero-pads the
hour (`%I` is a two-digit field), so the display form of `"09:00"` is
`"09:00AM"`, not the claimed no-leading-zero form `"9:00AM"`. -/
theorem c3_leading_zero_counterexample :
    parseHM "09:00" = some (9, 0) ∧
    to_display_time "09:00" = "09:00AM" ∧
    displayNoLeadZero 9 0 = "9:00AM" ∧
    to_display_time "09:00" ≠ displayNoLeadZero 9 0 :=
  ⟨by decide, by decide, by decide, by decide⟩

/-- **C3 (amended).**  `to_display_time` returns `"--"` on empty input, the
`%I:%M%p` rendering — with a zero-padded two-digit hour — on anything
`%H:%M` accepts, and the input unchanged otherwise. -/
theorem c3_display_time_characterization :
    to_display_time "" = "--" ∧
    (∀ s h m, parseHM s = some (h, m) → to_display_time s = fmt12 h m) ∧
    (∀ s, s ≠ "" → parseHM s = none → to_display_time s = s) := by
  refine ⟨rfl, ?_, ?_⟩
  · intro s h m hp
    by_cases hs : s = ""
    · subst hs
      rw [show parseHM "" = none from by decide] at hp
      simp at hp
    · unfold to_display_time
      rw [if_neg hs, hp]
  · intro s hs hp
    unfold to_display_time
    rw [if_neg hs, hp]

/-- Witness for C3 (amended): an afternoon time and a non-time string. -/
theorem c3_display_time_characterization_witness :
    to_display_time "18:05" = fmt12 18 5 ∧ to_display_time "abc" = "abc" :=
  ⟨c3_display_time_characterization.2.1 "18:05" 18 5 (by decide),
   c3_display_time_characterization.2.2 "abc" (by decide) (by decide)⟩

/-! ## Claim C7: 12-hour round trip -/

theorem hour12_inv {h : ℕ} (h₁ : 1 ≤ h) (h₂ : h ≤ 12) (pm : Bool) :
    (if (h % 12 + if pm then 12 else 0) % 12 = 0 then 12
      else (h % 12 + if pm then 12 else 0) % 12) = h ∧
    (if (h % 12 + if pm then 12 else 0) < 12 then Bool.false else Bool.true) = pm := by
  cases pm <;> constructor <;> split_ifs <;> first | rfl | omega | simp_all

/-- **C7.**  Any string whose cleaned form parses as a 12-hour time with
minutes 00–59 survives `to_display_time ∘ to_24h`: the rendered display
parses back to exactly the same hour, minute and meridiem. -/
theorem c7_roundtrip_12h (X : String) (h m : ℕ) (pm : Bool)
    (hp : parse12 (pyClean X) = some (h, m, pm)) :
    parse12 (to_display_time (to_24h X)) = some (h, m, pm) := by
  obtain ⟨hb₁, hb₂, hb₃⟩ := parse12_bounds hp
  have hX : X ≠ "" := by
    rintro rfl
    rw [show pyClean "" = "" from rfl, show parse12 "" = none from by decide] at hp
    simp at hp
  have hmod : h % 12 < 12 := Nat.mod_lt _ (by norm_num)
  have hlt : h % 12 + (if pm then 12 else 0) < 24 := by
    split_ifs <;> omega
  have h24 : to_24h X = fmtHM (h % 12 + if pm then 12 else 0) m := by
    unfold to_24h
    rw [if_neg hX, hp]
  have hdisp : to_display_time (to_24h X) = fmt12 (h % 12 + if pm then 12 else 0) m := by
    rw [h24]
    unfold to_display_time
    rw [if_neg (fmtHM_ne_empty _ _), parseHM_fmtHM _ hlt _ (by omega)]
  rw [hdisp, parse12_fmt12 _ hlt _ (by omega)]
  refine congrArg some ?_
  have hinv := hour12_inv hb₁ hb₂ pm
  simp only [Prod.mk.injEq]
  exact ⟨hinv.1, trivial, hinv.2⟩

/-- Witness for C7: a padded lowercase evening time. -/
theorem c7_roundtrip_12h_witness :
    parse12 (pyClean " 9:30 pm") = some (9, 30, true) ∧
    parse12 (to_display_time (to_24h " 9:30 pm")) = some (9, 30, true) :=
  ⟨by decide, c7_roundtrip_12h " 9:30 pm" 9 30 true (by decide)⟩

/-! ## Claim C6: empty day entries -/

/-- **C6.**  A day whose shift list is absent or empty renders exactly one
start fragment and one end fragment, both with empty raw time values, shows
the literal `"0.00"` in the hours cell, and adds nothing to the week total
wherever it sits in the record. -/
theorem c6_empty_day (index : ℕ) (entry : DayEntry)
    (h : entry.shifts = none ∨ entry.shifts = some []) :
    dayStartEntries index entry = [startFragment index 0 "" "--"] ∧
    dayEndEntries index entry = [endFragment index 0 "" "--"] ∧
    hoursDisplay entry = "0.00" ∧
    dayTotal entry = .num 0 ∧
    ∀ pre post : List DayEntry, weekTotal (pre ++ entry :: post) = weekTotal (pre ++ post) := by
  have heff : effectiveShifts entry = [{}] := by
    rcases h with h | h <;> simp [effectiveShifts, h]
  have hdt : dayTotal entry = .num 0 := by
    unfold dayTotal
    rw [heff]
    decide
  refine ⟨?_, ?_, ?_, hdt, fun pre post => weekTotal_skip pre post entry hdt⟩
  · unfold dayStartEntries
    rw [heff]
    simp only [List.mapIdx_cons, List.mapIdx_nil]
    simp only [show to_24h "" = "" from rfl, show escape (to_display_time "") = "--" from by decide]
  · unfold dayEndEntries
    rw [heff]
    simp only [List.mapIdx_cons, List.mapIdx_nil]
    simp only [show to_24h "" = "" from rfl, show escape (to_display_time "") = "--" from by decide]
  · unfold hoursDisplay
    rw [hdt]
    decide

/-- Witness for C6: an empty Monday, alone and next to a worked day. -/
theorem c6_empty_day_witness :
    ({ day := "Monday" } : DayEntry).shifts = none ∧
    dayStartEntries 0 { day := "Monday" } = [startFragment 0 0 "" "--"] ∧
    hoursDisplay ({ day := "Monday" } : DayEntry) = "0.00" ∧
    weekTotal [{ day := "Monday" }] = weekTotal [] :=
  ⟨rfl,
   (c6_empty_day 0 { day := "Monday" } (Or.inl rfl)).1,
   (c6_empty_day 0 { day := "Monday" } (Or.inl rfl)).2.2.1,
   (c6_empty_day 0 { day := "Monday" } (Or.inl rfl)).2.2.2.2 [] []⟩

/-! ## Claim C10: raw attribute values are canonical -/

/-- **C10.**  Every string the row builder interpolates unescaped into a
`data-raw-value` or time-`input` `value` attribute is an output of `to_24h`
(by construction of the fragment lists), and every such output is either
empty or exactly `HH:MM` — two digits, a colon, two digits — so those
attribute values never contain quotes, angle brackets or ampersands. -/
theorem c10_raw_values_canonical (entries : List DayEntry) (r : String)
    (hr : r ∈ rawTimeValues entries) :
    (r = "" ∨ isCanonicalHHMM r = true) ∧
    ∀ c ∈ r.data, ¬(c = '"' ∨ c = '<' ∨ c = '>' ∨ c = '&') := by
  have hex : ∃ v, r = to_24h v := by
    unfold rawTimeValues at hr
    simp only [List.mem_join, List.mem_map] at hr
    obtain ⟨l, ⟨e, _, rfl⟩, hl⟩ := hr
    simp only [List.mem_join, List.mem_map] at hl
    obtain ⟨l₂, ⟨s, _, rfl⟩, hl₂⟩ := hl
    simp only [List.mem_cons, List.not_mem_nil, or_false] at hl₂
    rcases hl₂ with rfl | rfl
    · exact ⟨s.start, rfl⟩
    · exact ⟨s.«end», rfl⟩
  obtain ⟨v, rfl⟩ := hex
  rcases to_24h_cases v with h | ⟨h24, m, hh, hm, h⟩
  · rw [h]
    refine ⟨Or.inl rfl, ?_⟩
    intro c hc
    simp at hc
  · rw [h]
    refine ⟨Or.inr (isCanonicalHHMM_fmtHM (by omega) (by omega)), ?_⟩
    intro c hc
    exact digit_or_colon_safe (fmtHM_chars (by omega) (by omega) c hc)

/-- Witness for C10: a 12-hour start and a missing end time. -/
theorem c10_raw_values_canonical_witness :
    "21:00" ∈ rawTimeValues [{ shifts := some [{ start := "9:00 PM" }] }] ∧
    ("21:00" = "" ∨ isCanonicalHHMM "21:00" = true) ∧
    ∀ c ∈ "21:00".data, ¬(c = '"' ∨ c = '<' ∨ c = '>' ∨ c = '&') :=
  ⟨by decide,
   (c10_raw_values_canonical [{ shifts := some [{ start := "9:00 PM" }] }] "21:00" (by decide)).1,
   (c10_raw_values_canonical [{ shifts := some [{ start := "9:00 PM" }] }] "21:00" (by decide)).2⟩

/-! ## Claim C8: `format_hours` -/

theorem digitsToNat_append (l : List Char) (c : Char) :
    digitsToNat (l ++ [c]) = digitsToNat l * 10 + (c.toNat - 48) := by
  unfold digitsToNat
  rw [List.foldl_append]
  rfl

theorem natReprAux_spec : ∀ fuel n : ℕ, n ≤ fuel →
    digitsToNat (natReprAux fuel n) = n ∧ ∀ c ∈ natReprAux fuel n, c.isDigit = true := by
  intro fuel
  induction fuel with
  | zero =>
      intro n hn
      interval_cases n
      exact ⟨rfl, by simp [natReprAux]⟩
  | succ fuel ih =>
      intro n hn
      rw [natReprAux]
      split_ifs with h
      · subst h
        exact ⟨rfl, by simp⟩
      · have hdiv : n / 10 ≤ fuel := by
          have : n / 10 < n := Nat.div_lt_self (by omega) (by norm_num)
          omega
        obtain ⟨ih₁, ih₂⟩ := ih _ hdiv
        have hlt : n % 10 < 10 := Nat.mod_lt _ (by norm_num)
        constructor
        · rw [digitsToNat_append, ih₁, digitChar_val hlt]
          omega
        · intro c hc
          rw [List.mem_append] at hc
          rcases hc with hc | hc
          · exact ih₂ c hc
          · simp only [List.mem_singleton] at hc
            subst hc
            exact digitChar_isDigit hlt

theorem natRepr_digits (n : ℕ) : ∀ c ∈ (natRepr n).data, c.isDigit = true := by
  unfold natRepr
  split_ifs with h
  · intro c hc
    simp only [String.data] at hc
    simp at hc
    subst hc
    decide
  · exact (natReprAux_spec n n le_rfl).2

theorem digitsToNat_natRepr (n : ℕ) : digitsToNat (natRepr n).data = n := by
  unfold natRepr
  split_ifs with h
  · subst h
    decide
  · exact (natReprAux_spec n n le_rfl).1

theorem natRepr_ne_nil (n : ℕ) : (natRepr n).data ≠ [] := by
  unfold natRepr
  split_ifs with h
  · decide
  · cases n with
    | zero => exact absurd rfl h
    | succ k =>
        rw [natReprAux]
        simp

theorem digit_not_space {c : Char} (h : c.isDigit = true) : isPySpace c = false := by
  have hd := digit_toNat h
  have h₁ : c ≠ ' ' := by rintro rfl; exact absurd hd (by decide)
  have h₂ : c ≠ '\t' := by rintro rfl; exact absurd hd (by decide)
  have h₃ : c ≠ '\n' := by rintro rfl; exact absurd hd (by decide)
  have h₄ : c ≠ '\x0d' := by rintro rfl; exact absurd hd (by decide)
  have h₅ : c ≠ '\x0b' := by rintro rfl; exact absurd hd (by decide)
  have h₆ : c ≠ '\x0c' := by rintro rfl; exact absurd hd (by decide)
  simp [isPySpace, h₁, h₂, h₃, h₄, h₅, h₆]

theorem digit_ne_underscore {c : Char} (h : c.isDigit = true) : c ≠ '_' := by
  have hd := digit_toNat h
  rintro rfl
  exact absurd hd (by decide)

theorem digit_toLower {c : Char} (h : c.isDigit = true) : c.toLower = c := by
  have hd := digit_toNat h
  unfold Char.toLower
  rw [if_neg]
  rintro ⟨h₁, h₂⟩
  have h₃ : ('A').toNat ≤ c.toNat := h₁
  have h₄ : ('A').toNat = 65 := rfl
  omega

theorem takeWhile_all {p : Char → Bool} :
    ∀ l : List Char, (∀ c ∈ l, p c = true) → l.takeWhile p = l ∧ l.dropWhile p = [] := by
  intro l
  induction l with
  | nil => exact fun _ => ⟨rfl, rfl⟩
  | cons c t ih =>
      intro h
      obtain ⟨ih₁, ih₂⟩ := ih fun x hx => h x (List.mem_cons_of_mem _ hx)
      have hc := h c (List.mem_cons_self _ _)
      constructor
      · rw [List.takeWhile_cons, hc]
        simp [ih₁]
      · rw [List.dropWhile_cons, hc]
        simpa using ih₂

theorem dropWhile_eq_self_of {p : Char → Bool} (l : List Char)
    (h : ∀ c ∈ l, p c = false) : l.dropWhile p = l := by
  cases l with
  | nil => rfl
  | cons c t =>
      rw [List.dropWhile_cons, h c (List.mem_cons_self _ _)]
      simp

theorem pyStrip_eq_self {l : List Char} (h : ∀ c ∈ l, isPySpace c = false) : pyStrip l = l := by
  unfold pyStrip
  rw [dropWhile_eq_self_of _ h,
    dropWhile_eq_self_of _ (fun c hc => h c (List.mem_reverse.1 hc)), List.reverse_reverse]

theorem decBody?_digits (neg : Bool) (l : List Char) (hne : l ≠ [])
    (hd : ∀ c ∈ l, c.isDigit = true) :
    decBody? neg l =
      some (.num (if neg then -(digitsToNat l : ℚ) else (digitsToNat l : ℚ))) := by
  obtain ⟨htake, hdrop⟩ := takeWhile_all l hd
  have hspan : l.span Char.isDigit = (l, []) := by
    rw [List.span_eq_take_drop, htake, hdrop]
  unfold decBody?
  rw [hspan]
  show (if l = [] then none
      else
        match decExponent? ([] : List Char) with
        | none => none
        | some e => some (Dec.num (decMag neg l 0 e))) = _
  rw [if_neg hne]
  show some (Dec.num (decMag neg l 0 0)) =
    some (Dec.num (if neg = true then -(digitsToNat l : ℚ) else (digitsToNat l : ℚ)))
  unfold decMag
  norm_num

theorem decUnsigned?_digits (neg : Bool) (c : Char) (t : List Char)
    (hd : ∀ x ∈ c :: t, x.isDigit = true) :
    decUnsigned? neg (c :: t) =
      some (.num (if neg then -(digitsToNat (c :: t) : ℚ) else (digitsToNat (c :: t) : ℚ))) := by
  have hc := hd c (List.mem_cons_self _ _)
  have hlow : (c :: t).map Char.toLower = c :: t := by
    rw [List.map_congr_left (fun x hx => digit_toLower (hd x hx))]
    simp
  have hInf : ¬((c :: t).map Char.toLower = "inf".data ∨
      (c :: t).map Char.toLower = "infinity".data) := by
    rw [hlow]
    rintro (h | h) <;>
      (injection h with h₁ _; subst h₁; exact absurd hc (by decide))
  have hNan : ¬(((c :: t).map Char.toLower).take 3 = "nan".data ∧
      (((c :: t).map Char.toLower).drop 3).all Char.isDigit = true) := by
    rw [hlow]
    rintro ⟨h, _⟩
    rw [List.take_succ_cons] at h
    injection h with h₁ _
    subst h₁
    exact absurd hc (by decide)
  have hSnan : ¬(((c :: t).map Char.toLower).take 4 = "snan".data ∧
      (((c :: t).map Char.toLower).drop 4).all Char.isDigit = true) := by
    rw [hlow]
    rintro ⟨h, _⟩
    rw [List.take_succ_cons] at h
    injection h with h₁ _
    subst h₁
    exact absurd hc (by decide)
  unfold decUnsigned?
  rw [if_neg hInf, if_neg hNan, if_neg hSnan]
  exact decBody?_digits neg (c :: t) (by simp) hd

theorem pyDecimal?_intRepr (n : ℤ) : pyDecimal? (intRepr n) = some (.num (n : ℚ)) := by
  cases n with
  | ofNat k =>
      have hdig := natRepr_digits k
      have hne := natRepr_ne_nil k
      show pyDecimal? (natRepr k) = _
      unfold pyDecimal?
      rw [pyStrip_eq_self (fun c hc => digit_not_space (hdig c hc)),
        List.filter_eq_self.2 (fun c hc => by simpa using digit_ne_underscore (hdig c hc))]
      obtain ⟨c, t, hct⟩ : ∃ c t, (natRepr k).data = c :: t := by
        cases h : (natRepr k).data with
        | nil => exact absurd h hne
        | cons c t => exact ⟨c, t, rfl⟩
      have hc : c.isDigit = true := hdig c (by rw [hct]; exact List.mem_cons_self _ _)
      rw [hct]
      split
      · rename_i rest heq
        injection heq with h₁ _
        subst h₁
        exact absurd hc (by decide)
      · rename_i rest heq
        injection heq with h₁ _
        subst h₁
        exact absurd hc (by decide)
      · rw [decUnsigned?_digits false c t (by rw [← hct]; exact hdig)]
        simp only [if_neg Bool.false_ne_true, ← hct, digitsToNat_natRepr]
        norm_num
  | negSucc j =>
      have hdig := natRepr_digits (j + 1)
      have hne := natRepr_ne_nil (j + 1)
      show pyDecimal? ("-" ++ natRepr (j + 1)) = _
      unfold pyDecimal?
      have hdata : ("-" ++ natRepr (j + 1)).data = '-' :: (natRepr (j + 1)).data := by
        rw [String.data_append]
        rfl
      rw [hdata]
      have hall : ∀ c ∈ '-' :: (natRepr (j + 1)).data, isPySpace c = false := by
        intro c hc
        rcases List.mem_cons.1 hc with rfl | hc
        · decide
        · exact digit_not_space (hdig c hc)
      rw [pyStrip_eq_self hall]
      have hfilt : ('-' :: (natRepr (j + 1)).data).filter (fun c => c ≠ '_') =
          '-' :: (natRepr (j + 1)).data := by
        refine List.filter_eq_self.2 ?_
        intro c hc
        rcases List.mem_cons.1 hc with rfl | hc
        · decide
        · simpa using digit_ne_underscore (hdig c hc)
      rw [hfilt]
      obtain ⟨c, t, hct⟩ : ∃ c t, (natRepr (j + 1)).data = c :: t := by
        cases h : (natRepr (j + 1)).data with
        | nil => exact absurd h hne
        | cons c t => exact ⟨c, t, rfl⟩
      rw [hct]
      show decUnsigned? true (c :: t) = _
      rw [decUnsigned?_digits true c t (by rw [← hct]; exact hdig)]
      simp only [if_pos rfl, ← hct, digitsToNat_natRepr]
      rw [Int.cast_negSucc]
      norm_num

/-- **C8.**  `format_hours` maps `None` and `""` to `""`; formats a
`Decimal` to two fractional digits (`Decimal("7.5")` gives `"7.50"`);
converts any other value through `Decimal(str(value))` and formats it the
same way; returns the raw string unchanged when that conversion fails
(`"abc"` stays `"abc"`); and, being a total function, never raises. -/
theorem c8_format_hours_total :
    format_hours .pynone = "" ∧
    format_hours (.pstr "") = "" ∧
    (∀ d : Dec, format_hours (.pdec d) = fmt2 d) ∧
    fmt2 (.num (15 / 2)) = "7.50" ∧
    (∀ (s : String) (d : Dec), pyDecimal? s = some d → format_hours (.pstr s) = fmt2 d) ∧
    (∀ s : String, s ≠ "" → pyDecimal? s = none → format_hours (.pstr s) = s) ∧
    format_hours (.pstr "abc") = "abc" ∧
    (∀ n : ℤ, format_hours (.pint n) = fmt2 (.num (n : ℚ))) := by
  refine ⟨rfl, rfl, fun d => rfl, by decide, ?_, ?_, by decide, ?_⟩
  · intro s d hp
    have hs : s ≠ "" := by
      rintro rfl
      rw [show pyDecimal? "" = none from by decide] at hp
      simp at hp
    show (if s = "" then "" else _) = _
    rw [if_neg hs, hp]
  · intro s hs hp
    show (if s = "" then "" else _) = _
    rw [if_neg hs, hp]
  · intro n
    show (match pyDecimal? (intRepr n) with | some d => fmt2 d | none => intRepr n) = _
    rw [pyDecimal?_intRepr]

/-- Witness for C8: a parseable override, an unparseable string, and an
integer-typed value. -/
theorem c8_format_hours_total_witness :
    pyDecimal? "0.125" = some (.num (1 / 8)) ∧
    format_hours (.pstr "0.125") = fmt2 (.num (1 / 8)) ∧
    pyDecimal? "12:00" = none ∧
    format_hours (.pstr "12:00") = "12:00" ∧
    format_hours (.pint (-3)) = fmt2 (.num ((-3 : ℤ) : ℚ)) :=
  ⟨by decide,
   c8_format_hours_total.2.2.2.2.1 "0.125" _ (by decide),
   by decide,
   c8_format_hours_total.2.2.2.2.2.1 "12:00" (by decide) (by decide),
   c8_format_hours_total.2.2.2.2.2.2.2 (-3)⟩

end Timesheet
